import Mathlib

/-
Shallow embedding of the Recorder program (src/main.py) and verification of
the claims about it.

Modelling conventions:
- 16-bit PCM samples are integers (Int) with explicit clamping and wrapping
  where the source saturates or casts.
- The AudioProcessor object is a record of its mutable fields; every method
  becomes a pure function from the record (plus external inputs such as the
  device read result or the current duration) to a new record.
- Threads are modelled by explicit loops over scripts of external events;
  the number-crunching steps of each loop iteration follow the Python source
  line by line.
- numpy float64 arithmetic in the Fourier filter is idealized as exact real
  arithmetic; the final astype cast is modelled as truncation toward zero
  followed by wrapping modulo 2^16, which is what the C conversion performs
  for in-range values.
-/

/-- Saturation of an integer to the signed 16-bit range, as performed by
the fbound helper of the audioop C module (factor 2 keeps values integral,
so the floor step of fbound is the identity here). -/
def clamp16 (v : ℤ) : ℤ := max (-32768) (min 32767 v)

/-- Fixed-width wrap of an integer into the signed 16-bit range, as the
numpy astype cast to int16 performs on an (already truncated) value. -/
def wrap16 (v : ℤ) : ℤ := (v + 32768) % 65536 - 32768

namespace audioop

/-- audioop.tostereo fragment 2 lfactor rfactor: every mono sample v becomes
the pair (clamp (lfactor*v), clamp (rfactor*v)). -/
def tostereo : List ℤ → ℤ → ℤ → List ℤ
  | [], _, _ => []
  | v :: t, lf, rf => clamp16 (lf * v) :: clamp16 (rf * v) :: tostereo t lf rf

/-- audioop.mul fragment 2 factor: every sample is multiplied by the factor
and saturated. -/
def mul (xs : List ℤ) (factor : ℤ) : List ℤ := xs.map fun v => clamp16 (factor * v)

end audioop

/-- One block of audio samples (signed 16-bit values). -/
abbrev Block := List ℤ

/-- The mutable state of an AudioProcessor object: the device handles, the
hand-off queue, the duration bookkeeping and the four lifecycle flags.
Device handles and the PyAudio object are opaque; only their presence
matters, so they are modelled as Option Unit. The queue is modelled by its
list of blocks (FIFO order, head popped first). -/
structure AudioProcessor where
  in_stream : Option Unit
  out_stream : Option Unit
  p : Option Unit
  audio_data_queue : Option (List Block)
  duration : ℕ
  min_duration : ℕ
  max_duration : ℕ
  f_min : ℕ
  f_max : ℕ
  do_audio_filter : Bool
  is_running : Bool
  maximum_duration_reached : Bool
  minimal_duration_recorded : Bool
  stop_requested : Bool
  deriving Repr, DecidableEq

/-- AudioProcessor.stop, line by line: no-op when not running; when the
minimal duration has not been recorded it only sets stop_requested; otherwise
it clears is_running, releases both streams, drops the queue reference and
terminates the PyAudio object. -/
def stop (s : AudioProcessor) : AudioProcessor :=
  if ¬ s.is_running then s
  else if ¬ s.minimal_duration_recorded then { s with stop_requested := true }
  else { s with is_running := false, in_stream := none, out_stream := none,
                audio_data_queue := none, p := none }

/-- The body of one while-iteration of AudioProcessor.recording_timer, with
the freshly computed duration d = round (now - start_time) supplied as a
parameter (time is external). Returns the new state and whether the
iteration left the loop via a break statement. The source runs two
sequential if statements: the minimum-duration check (which may break when a
stop is pending) is executed first, and a break there skips the
maximum-duration check entirely. -/
def timerStep (s0 : AudioProcessor) (d : ℕ) : AudioProcessor × Bool :=
  let s1 := { s0 with duration := d }
  let s2 := if s1.min_duration ≤ d then { s1 with minimal_duration_recorded := true } else s1
  if (decide (s1.min_duration ≤ d) && s2.stop_requested) = true then (s2, true)
  else if s2.max_duration ≤ d then ({ s2 with maximum_duration_reached := true }, true)
  else (s2, false)

/-- AudioProcessor.recording_timer run against a finite script of observed
durations, one per second. The thread loops while is_running, breaking out
as timerStep dictates, and invokes stop when the loop ends. The Bool records
whether the thread reached its final stop call within the script (false
means the script was exhausted with the loop still going). -/
def recording_timer : AudioProcessor → List ℕ → AudioProcessor × Bool
  | s, [] => (s, false)
  | s, d :: rest =>
    if s.is_running then
      let p := timerStep s d
      if p.2 then (stop p.1, true) else recording_timer p.1 rest
    else (stop s, true)

/-- Even-indexed elements of a list (the slice da[0::2], the left channel). -/
def evens : List α → List α
  | [] => []
  | [x] => [x]
  | x :: _ :: t => x :: evens t

/-- Odd-indexed elements of a list (the slice da[1::2], the right channel). -/
def odds : List α → List α
  | [] => []
  | [_] => []
  | _ :: y :: t => y :: odds t

/-- np.column_stack((l, r)).ravel(): interleaving of two equal-length
channel lists. -/
def interleave : List α → List α → List α
  | x :: xs, y :: ys => x :: y :: interleave xs ys
  | _, _ => []

/-- Apply a function of the absolute index to every element, starting at a
given index. Used to model slice assignments on a numpy array. -/
def applyIdx (f : ℕ → α → α) : ℕ → List α → List α
  | _, [] => []
  | i, x :: t => f i x :: applyIdx f (i + 1) t

/-- The slice assignment a[:lo] = 0. -/
def zeroBelow (lo : ℕ) (a : List ℂ) : List ℂ :=
  applyIdx (fun i v => if i < lo then 0 else v) 0 a

/-- The slice assignment a[hi:] = 0 (a no-op when hi is at least the
length, exactly as in Python). -/
def zeroFrom (hi : ℕ) (a : List ℂ) : List ℂ :=
  applyIdx (fun i v => if hi ≤ i then 0 else v) 0 a

open Complex in
/-- The complex exponential exp (2 pi i t / n), the n-th root of unity
raised to the integer power t. -/
noncomputable def wexp (n : ℕ) (t : ℤ) : ℂ :=
  Complex.exp (2 * (Real.pi : ℂ) * Complex.I * (t : ℂ) / (n : ℂ))

/-- Coefficient k of the unnormalized forward real FFT of a real sequence,
as np.fft.rfft computes it: the sum of x_j exp (-2 pi i j k / n). -/
noncomputable def rfftVal (x : List ℝ) (k : ℕ) : ℂ :=
  ∑ j ∈ Finset.range x.length, (x.getD j 0 : ℂ) * wexp x.length (-((j : ℤ) * k))

/-- np.fft.rfft: the nonnegative-frequency coefficients, bins 0 .. n/2. -/
noncomputable def rfft (x : List ℝ) : List ℂ :=
  (List.range (x.length / 2 + 1)).map (rfftVal x)

/-- The output length of np.fft.irfft with the default size argument:
2 * (number of bins - 1). -/
def irfftLen (a : List ℂ) : ℕ := 2 * (a.length - 1)

/-- Sample j of np.fft.irfft a: the normalized inverse transform of the
Hermitian extension of a, using only the real parts of the DC and Nyquist
bins (as the complex-to-real transform does). -/
noncomputable def irfftVal (a : List ℂ) (j : ℕ) : ℝ :=
  ((a.getD 0 0).re + (-1 : ℝ) ^ j * (a.getD (a.length - 1) 0).re
    + ∑ k ∈ Finset.Ioo 0 (a.length - 1), 2 * ((a.getD k 0) * wexp (irfftLen a) ((j : ℤ) * k)).re)
    / (irfftLen a)

/-- np.fft.irfft with the default size argument. -/
noncomputable def irfft (a : List ℂ) : List ℝ :=
  (List.range (irfftLen a)).map (irfftVal a)

/-- The astype np.int16 conversion of one float64 value: truncation toward
zero, then fixed-width wrap into the signed 16-bit range. -/
noncomputable def castInt16 (x : ℝ) : ℤ :=
  wrap16 (if 0 ≤ x then ⌊x⌋ else -⌊-x⌋)

/-- Conversion of an int16 sample list to the float64 (here: real) samples
numpy works on. -/
noncomputable def toReals (b : Block) : List ℝ := b.map fun v : ℤ => (v : ℝ)

/-- The try-block of AudioProcessor.filter_by_frequency_range, with the
exceptional exits made explicit: np.fft.rfft raises on an empty input, and
np.fft.irfft raises when the requested output length 2*(bins-1) is zero;
np.column_stack raises when the two channels have different lengths. In
every such case the Python body lands in the except handler, so the model
returns none. -/
noncomputable def filterBody (data : Block) (lowpass highpass : ℕ) : Option Block :=
  let da := data
  let left := evens da
  let right := odds da
  if left.length = 0 ∨ right.length = 0 then none
  else
    let lf := rfft (toReals left)
    let rf := rfft (toReals right)
    let lf2 := zeroFrom highpass (zeroBelow lowpass lf)
    let rf2 := zeroFrom highpass (zeroBelow lowpass rf)
    if lf2.length ≤ 1 ∨ rf2.length ≤ 1 then none
    else
      let nl := irfft lf2
      let nr := irfft rf2
      if nl.length ≠ nr.length then none
      else some (interleave (nl.map castInt16) (nr.map castInt16))

/-- AudioProcessor.filter_by_frequency_range as the session observes it:
the pure try-block, except that when the body raises, the handler prints
and calls self.stop(), and the method returns None. -/
noncomputable def filter_by_frequency_range (s : AudioProcessor) (data : Block)
    (lowpass highpass : ℕ) : AudioProcessor × Option Block :=
  match filterBody data lowpass highpass with
  | some r => (s, some r)
  | none => (stop s, none)

/-- Observable events of a capture-loop iteration: a device read, a call to
stop, a block pushed to the queue. -/
inductive Ev where
  | readEv : Ev
  | stopEv : Ev
  | pushEv : Block → Ev
  deriving Repr, DecidableEq

/-- One iteration of the while-loop of AudioProcessor.process_audio, fed
with the outcome of the in_stream.read call (none models a raised read
error). The iteration filters when enabled (the filter itself calling stop
on an internal error and handing back None, on which audioop.tostereo then
raises), upmixes with factor 2 on both channels, doubles via audioop.mul,
and puts the block on the queue (a put on a released queue raises). Every
raise lands in the except handler, which calls stop; the loop itself does
not break there. -/
noncomputable def captureStep (s : AudioProcessor) (r : Option Block) :
    AudioProcessor × List Ev :=
  match r with
  | none => (stop s, [Ev.readEv, Ev.stopEv])
  | some data =>
    let fr : AudioProcessor × Option Block :=
      if s.do_audio_filter then filter_by_frequency_range s data s.f_min s.f_max
      else (s, some data)
    match fr with
    | (s1, none) => (stop s1, [Ev.readEv, Ev.stopEv, Ev.stopEv])
    | (s1, some d) =>
      let out := audioop.mul (audioop.tostereo d 2 2) 2
      match s1.audio_data_queue with
      | some q => ({ s1 with audio_data_queue := some (q ++ [out]) },
                   [Ev.readEv, Ev.pushEv out])
      | none => (stop s1, [Ev.readEv, Ev.stopEv])

/-- AudioProcessor.process_audio run against a finite script of device read
outcomes: while is_running, perform one iteration per script entry,
accumulating the events. An exhausted script ends the observation. -/
noncomputable def captureLoop : AudioProcessor → List (Option Block) → AudioProcessor × List Ev
  | s, [] => (s, [])
  | s, r :: rest =>
    if s.is_running then
      let p := captureStep s r
      let q := captureLoop p.1 rest
      (q.1, p.2 ++ q.2)
    else (s, [])

/-- Program counter of the OutputWorker (AudioProcessor.play_audio): at the
top of the while loop, blocked inside audio_data_queue.get, or past the
loop with the wave file closed. -/
inductive OutPC where
  | loopTop : OutPC
  | blocked : OutPC
  | done : OutPC
  deriving Repr, DecidableEq

/-- Configuration of the OutputWorker after a completed stop of the session
(is_running is false, both streams and the queue reference are released).
held is the content of the queue object the worker already holds; no
producer can reach that object any more, because the only path to it, the
audio_data_queue field, is None and the capture loop has exited. -/
structure OutCfg where
  pc : OutPC
  held : List Block
  fileClosed : Bool
  deriving Repr, DecidableEq

/-- One step of AudioProcessor.play_audio after the session has completed
its stop. At the loop top the while condition is false, so the loop exits
and wav_file.close() runs. A worker inside get with a block available
receives it, but the subsequent out_stream.write raises (the stream is
released), the except handler calls stop (a no-op now) and the loop
re-checks its condition. A worker inside get with nothing available stays
blocked: queue.Queue has no close operation and nothing can put. -/
def outStepPost (c : OutCfg) : OutCfg :=
  match c.pc with
  | OutPC.loopTop => { c with pc := OutPC.done, fileClosed := true }
  | OutPC.blocked =>
    match c.held with
    | [] => c
    | _ :: rest => { c with pc := OutPC.loopTop, held := rest }
  | OutPC.done => c

/-- Actions on the hand-off queue: a producer put or a consumer get. -/
inductive QAct (α : Type) where
  | push : α → QAct α
  | pop : QAct α
  deriving Repr, DecidableEq

/-- Trace state of the hand-off queue: everything ever pushed, everything
popped so far, and the current content. -/
structure QState (α : Type) where
  pushed : List α
  popped : List α
  buf : List α
  deriving Repr, DecidableEq

/-- One queue action. queue.Queue.put appends at the tail; queue.Queue.get
removes the head. A get on an empty queue blocks, which in this serialized
trace model is a step without effect. -/
def qStep (s : QState α) : QAct α → QState α
  | QAct.push b => ⟨s.pushed ++ [b], s.popped, s.buf ++ [b]⟩
  | QAct.pop =>
    match s.buf with
    | [] => s
    | b :: rest => ⟨s.pushed, s.popped ++ [b], rest⟩

/-- A serialized trace of queue actions (legitimate because queue.Queue
linearizes its operations, and here there is a single producer and a single
consumer). -/
def qRun (s : QState α) : List (QAct α) → QState α
  | [] => s
  | a :: rest => qRun (qStep s a) rest

/-- Modelled from the spec wording of claim C5: upmix mono to stereo by
duplicating the channel, then amplify by a single fixed gain that doubles
the amplitude, saturating at the 16-bit boundary. -/
def specUpmixThenDouble (xs : Block) : Block :=
  audioop.mul (interleave xs xs) 2

/-- The net per-sample transformation the capture pipeline actually applies
with the filter disabled: duplication with a quadrupled, saturated
amplitude. -/
def stereoQuad : Block → Block
  | [] => []
  | v :: t => clamp16 (4 * v) :: clamp16 (4 * v) :: stereoQuad t

/-- Modelled from the spec wording of claim C6: de-interleave, take the
real FFT of each channel, zero the coefficient bins below the low cutoff
and at or above the high cutoff in one pass, inverse-transform,
re-interleave, cast back to int16. -/
noncomputable def specFilterPipeline (block : Block) (lowCutoff highCutoff : ℕ) : Block :=
  let l := evens block
  let r := odds block
  let zero := fun (a : List ℂ) =>
    applyIdx (fun i v => if i < lowCutoff ∨ highCutoff ≤ i then 0 else v) 0 a
  let nl := irfft (zero (rfft (toReals l)))
  let nr := irfft (zero (rfft (toReals r)))
  interleave (nl.map castInt16) (nr.map castInt16)

/-- A representative freshly started session: both streams and the PyAudio
object acquired, an empty queue, default command-line parameters, running,
all flags clear. -/
def baseState : AudioProcessor where
  in_stream := some ()
  out_stream := some ()
  p := some ()
  audio_data_queue := some []
  duration := 0
  min_duration := 2
  max_duration := 5
  f_min := 21
  f_max := 9000
  do_audio_filter := false
  is_running := true
  maximum_duration_reached := false
  minimal_duration_recorded := false
  stop_requested := false

/-- C1 counterexample: a running timer iteration with a pending stop
request, the minimal duration recorded, and the duration at the maximum
(min_duration = max_duration = 2, d = 2). The iteration breaks out of the
loop through the stop-request branch, and maximum_duration_reached stays
false, contradicting the claim that the flag is set whenever the duration
reaches the maximum. -/
theorem C1_counterexample :
    (let s : AudioProcessor :=
      { baseState with min_duration := 2, max_duration := 2,
                       minimal_duration_recorded := true, stop_requested := true };
     s.is_running = true ∧ s.max_duration ≤ 2 ∧ s.stop_requested = true ∧
     s.minimal_duration_recorded = true ∧
     (timerStep s 2).2 = true ∧
     (timerStep s 2).1.maximum_duration_reached = false) := by
  decide

/-- C1 amended: in a running timer iteration that observes a duration at or
beyond the maximum (with min_duration at most max_duration, as the duration
policy requires), the timer leaves its loop and the subsequent stop call
ends the session; maximum_duration_reached is set exactly when no stop
request is pending — a pending stop request wins the race for the flag,
while the session stops in either case. -/
theorem C1_amended (s : AudioProcessor) (d : ℕ) (rest : List ℕ)
    (hrun : s.is_running = true) (hmm : s.min_duration ≤ s.max_duration)
    (hmax : s.max_duration ≤ d) :
    recording_timer s (d :: rest) = (stop (timerStep s d).1, true) ∧
    (stop (timerStep s d).1).is_running = false ∧
    (s.stop_requested = false → (timerStep s d).1.maximum_duration_reached = true) ∧
    (s.stop_requested = true →
      (timerStep s d).1.maximum_duration_reached = s.maximum_duration_reached) := by
  have hmind : s.min_duration ≤ d := le_trans hmm hmax
  cases hsr : s.stop_requested with
  | false =>
    refine ⟨?_, ?_, ?_, ?_⟩ <;>
      simp [recording_timer, timerStep, stop, hrun, hmind, hmax, hsr]
  | true =>
    refine ⟨?_, ?_, ?_, ?_⟩ <;>
      simp [recording_timer, timerStep, stop, hrun, hmind, hmax, hsr]

/-- C1 witness: the amended statement evaluated on a concrete running
session with min_duration 2, max_duration 5 and observed duration 5. -/
theorem C1_witness :
    baseState.is_running = true ∧ baseState.min_duration ≤ baseState.max_duration ∧
    baseState.max_duration ≤ 5 ∧
    (recording_timer baseState (5 :: []) = (stop (timerStep baseState 5).1, true) ∧
      (stop (timerStep baseState 5).1).is_running = false ∧
      (baseState.stop_requested = false →
        (timerStep baseState 5).1.maximum_duration_reached = true) ∧
      (baseState.stop_requested = true →
        (timerStep baseState 5).1.maximum_duration_reached = baseState.maximum_duration_reached)) :=
  ⟨by decide, by decide, by decide,
    C1_amended baseState 5 [] (by decide) (by decide) (by decide)⟩

/-- C2: a stop call on a running session whose minimal duration is not yet
recorded only sets stop_requested and leaves every other part of the state
untouched — in particular is_running stays true and the streams, the
PyAudio object and the queue are not released; moreover, for any state
whatsoever, stop can only turn is_running false when the minimal duration
had been recorded (or the session was already stopped). -/
theorem C2_stop_defers (s : AudioProcessor)
    (h1 : s.is_running = true) (h2 : s.minimal_duration_recorded = false) :
    stop s = { s with stop_requested := true } ∧
    (stop s).is_running = true ∧
    (∀ t : AudioProcessor, (stop t).is_running = false →
      t.is_running = false ∨ t.minimal_duration_recorded = true) := by
  refine ⟨?_, ?_, ?_⟩
  · simp [stop, h1, h2]
  · simp [stop, h1, h2]
  · intro t ht
    by_cases hr : t.is_running = true
    · by_cases hm : t.minimal_duration_recorded = true
      · exact Or.inr hm
      · simp [stop, hr, hm] at ht
    · exact Or.inl (by simpa using hr)

/-- C2 witness: the deferral behaviour evaluated on the concrete fresh
session state. -/
theorem C2_witness :
    baseState.is_running = true ∧ baseState.minimal_duration_recorded = false ∧
    (stop baseState = { baseState with stop_requested := true } ∧
      (stop baseState).is_running = true ∧
      (∀ t : AudioProcessor, (stop t).is_running = false →
        t.is_running = false ∨ t.minimal_duration_recorded = true)) :=
  ⟨by decide, by decide, C2_stop_defers baseState (by decide) (by decide)⟩

/-- C3 counterexample: a read error in a running capture iteration before
the minimal duration is recorded. The except handler calls stop, but stop
only defers (it sets stop_requested and leaves is_running true), the loop
has no break in its handler, and the very next iteration reads the device
again — the events of the two-entry script contain two reads, refuting the
claim that the worker exits without any further read after an error. -/
theorem C3_counterexample :
    baseState.is_running = true ∧ baseState.minimal_duration_recorded = false ∧
    (captureLoop baseState [none, some [0]]).2 =
      [Ev.readEv, Ev.stopEv, Ev.readEv, Ev.pushEv [0, 0]] ∧
    ((captureLoop baseState [none, some [0]]).2.count Ev.readEv = 2 ∧
      (captureLoop baseState [none, some [0]]).1.is_running = true) := by
  refine ⟨rfl, rfl, ?_, ?_, ?_⟩ <;>
    simp [captureLoop, captureStep, stop, baseState, audioop.mul, audioop.tostereo, clamp16]

/-- C3 amended: a read or processing error is fatal to the capture loop
exactly when the stop it triggers takes effect. When the minimal duration
has been recorded, the failing iteration calls stop, the session stops, and
the loop exits with no further read (one single read event, whatever the
rest of the device script holds); when the minimal duration has not been
recorded the stop is deferred and the worker keeps reading. -/
theorem C3_amended (s : AudioProcessor) (rest : List (Option Block))
    (hrun : s.is_running = true) (hmin : s.minimal_duration_recorded = true) :
    captureLoop s (none :: rest) = (stop s, [Ev.readEv, Ev.stopEv]) ∧
    (stop s).is_running = false ∧
    (captureLoop s (none :: rest)).2.count Ev.readEv = 1 := by
  have hstop : (stop s).is_running = false := by simp [stop, hrun, hmin]
  have hloop : captureLoop (stop s) rest = (stop s, []) := by
    cases rest with
    | nil => rfl
    | cons r t => simp [captureLoop, hstop]
  refine ⟨?_, hstop, ?_⟩
  · simp [captureLoop, captureStep, hrun, hloop]
  · simp [captureLoop, captureStep, hrun, hloop, List.count_cons]

/-- C3 witness: the amended statement on a concrete running session whose
minimal duration has been recorded, with one failing read and a nonempty
remaining script. -/
theorem C3_witness :
    ({ baseState with minimal_duration_recorded := true } : AudioProcessor).is_running = true ∧
    ({ baseState with minimal_duration_recorded := true } : AudioProcessor).minimal_duration_recorded = true ∧
    (captureLoop { baseState with minimal_duration_recorded := true } (none :: [some [7]]) =
        (stop { baseState with minimal_duration_recorded := true }, [Ev.readEv, Ev.stopEv]) ∧
      (stop { baseState with minimal_duration_recorded := true }).is_running = false ∧
      (captureLoop { baseState with minimal_duration_recorded := true }
          (none :: [some [7]])).2.count Ev.readEv = 1) :=
  ⟨by decide, by decide,
    C3_amended { baseState with minimal_duration_recorded := true } [some [7]]
      (by decide) (by decide)⟩

/-- C4 counterexample: after a completed shutdown, an OutputWorker that is
already blocked inside audio_data_queue.get on an empty queue is a fixpoint
of the post-shutdown step function — nothing ever wakes it, the loop never
exits and the wave file is never closed. The final conjunct shows why: stop
performs no close and enqueues no end-of-stream marker on the queue, it
merely drops the reference (here, of a full stop of a running session whose
minimal duration was recorded and whose queue was empty). -/
theorem C4_counterexample :
    outStepPost ⟨OutPC.blocked, [], false⟩ = ⟨OutPC.blocked, [], false⟩ ∧
    (⟨OutPC.blocked, [], false⟩ : OutCfg).pc ≠ OutPC.done ∧
    (⟨OutPC.blocked, [], false⟩ : OutCfg).fileClosed = false ∧
    (stop { baseState with minimal_duration_recorded := true }).audio_data_queue = none := by
  decide

/-- C4 amended: on session shutdown the OutputWorker exits its loop and
closes the output file from the loop top, and also from a blocked pop that
still has a block to receive (the block is handed over, the write on the
released stream raises, the handler calls stop, and the re-checked loop
condition is false); but stop never closes or signals the queue (it either
drops the reference or leaves the queue unchanged — there is no
end-of-stream), so a pop already blocked on an empty queue is never woken,
and on that path the file is never finalized. -/
theorem C4_amended (b : Block) (rest : List Block) (fc : Bool) :
    outStepPost ⟨OutPC.loopTop, rest, fc⟩ = ⟨OutPC.done, rest, true⟩ ∧
    outStepPost (outStepPost ⟨OutPC.blocked, b :: rest, fc⟩) = ⟨OutPC.done, rest, true⟩ ∧
    outStepPost ⟨OutPC.blocked, [], fc⟩ = ⟨OutPC.blocked, [], fc⟩ ∧
    (∀ s : AudioProcessor,
      (stop s).audio_data_queue = none ∨ (stop s).audio_data_queue = s.audio_data_queue) := by
  refine ⟨rfl, rfl, rfl, ?_⟩
  intro s
  unfold stop
  by_cases hr : s.is_running
  · by_cases hm : s.minimal_duration_recorded
    · simp [hr, hm]
    · simp [hr, hm]
  · simp [hr]

/-- Doubling a sample that has already been doubled and saturated, and
saturating again, is the same as quadrupling and saturating once. -/
theorem clamp16_double_double (v : ℤ) : clamp16 (2 * clamp16 (2 * v)) = clamp16 (4 * v) := by
  simp only [clamp16, Int.max_def, Int.min_def]
  split_ifs <;> omega

/-- The capture pipeline with the filter disabled: audioop.tostereo with
both factors 2 followed by audioop.mul with factor 2 quadruples each sample
with saturation while duplicating it onto both channels. -/
theorem mul_tostereo_eq_stereoQuad (xs : Block) :
    audioop.mul (audioop.tostereo xs 2 2) 2 = stereoQuad xs := by
  induction xs with
  | nil => rfl
  | cons v t ih =>
    simp [audioop.tostereo, audioop.mul, stereoQuad, clamp16_double_double] at *
    exact ih

/-- C5 counterexample: with the filter disabled, the block the capture
iteration pushes for the mono input [1] is [4, 4] — each sample is doubled
by the tostereo upmix factors and doubled again by audioop.mul — while the
claimed duplicate-then-single-double transformation yields [2, 2]. -/
theorem C5_counterexample :
    (captureStep baseState (some [1])).2 = [Ev.readEv, Ev.pushEv [4, 4]] ∧
    specUpmixThenDouble [1] = [2, 2] ∧
    ¬ ([4, 4] : Block) = [2, 2] := by
  refine ⟨?_, by decide, by decide⟩
  simp [captureStep, baseState, audioop.mul, audioop.tostereo, clamp16]

/-- C5 amended: with the filter disabled, every capture iteration pushes
the input block upmixed to stereo by duplication with a gain that doubles
the amplitude at the upmix and doubles it again at the mul stage — a net
saturated quadrupling of each sample — onto the tail of the queue. -/
theorem C5_amended (s : AudioProcessor) (q : List Block) (xs : Block)
    (hf : s.do_audio_filter = false) (hq : s.audio_data_queue = some q) :
    captureStep s (some xs) =
      ({ s with audio_data_queue := some (q ++ [stereoQuad xs]) },
        [Ev.readEv, Ev.pushEv (stereoQuad xs)]) ∧
    stereoQuad xs = audioop.mul (audioop.tostereo xs 2 2) 2 := by
  refine ⟨?_, (mul_tostereo_eq_stereoQuad xs).symm⟩
  simp [captureStep, hf, hq, mul_tostereo_eq_stereoQuad]

/-- C5 witness: the amended statement on the fresh session and the mono
block [1, 20000]. -/
theorem C5_witness :
    baseState.do_audio_filter = false ∧ baseState.audio_data_queue = some [] ∧
    (captureStep baseState (some [1, 20000]) =
        ({ baseState with audio_data_queue := some ([] ++ [stereoQuad [1, 20000]]) },
          [Ev.readEv, Ev.pushEv (stereoQuad [1, 20000])]) ∧
      stereoQuad [1, 20000] = audioop.mul (audioop.tostereo [1, 20000] 2 2) 2) :=
  ⟨by decide, by decide, C5_amended baseState [] [1, 20000] (by decide) (by decide)⟩

/-- The queue trace invariant: what was popped, followed by what is still
buffered, is exactly what was pushed, in order. -/
theorem qRun_invariant (acts : List (QAct α)) :
    ∀ s : QState α, s.popped ++ s.buf = s.pushed →
      (qRun s acts).popped ++ (qRun s acts).buf = (qRun s acts).pushed := by
  induction acts with
  | nil => intro s h; exact h
  | cons a rest ih =>
    intro s h
    apply ih
    cases a with
    | push b => simp [qStep, ← h]
    | pop =>
      cases hb : s.buf with
      | nil => simpa [qStep, hb] using h
      | cons b r => simp only [qStep, hb]; rw [hb] at h; simpa using h

/-- C7: over any serialized trace of puts and gets starting from the empty
queue, the popped sequence followed by the current buffer equals the pushed
sequence — so blocks are consumed in exactly the FIFO order they were
produced, with no block dropped and none delivered twice; in particular,
once the buffer is drained at the end of a completed session, the consumed
sequence is exactly the produced one. -/
theorem C7_fifo_no_loss (acts : List (QAct Block)) :
    (qRun ⟨[], [], []⟩ acts).popped ++ (qRun ⟨[], [], []⟩ acts).buf =
      (qRun ⟨[], [], []⟩ acts).pushed ∧
    ((qRun ⟨[], [], []⟩ acts).buf = [] →
      (qRun ⟨[], [], []⟩ acts).popped = (qRun ⟨[], [], []⟩ acts).pushed) := by
  have h := qRun_invariant acts ⟨[], [], []⟩ rfl
  refine ⟨h, fun hbuf => ?_⟩
  simpa [hbuf] using h

/-- C7 witness: a concrete completed trace — two blocks pushed, two popped,
buffer drained, consumed equals produced. -/
theorem C7_witness :
    (qRun ⟨[], [], []⟩ [QAct.push [1], QAct.push [2], QAct.pop, QAct.pop] :
      QState Block).buf = [] ∧
    (qRun ⟨[], [], []⟩ [QAct.push [1], QAct.push [2], QAct.pop, QAct.pop] :
        QState Block).popped =
      (qRun ⟨[], [], []⟩ [QAct.push [1], QAct.push [2], QAct.pop, QAct.pop] :
        QState Block).pushed :=
  ⟨by decide,
    (C7_fifo_no_loss [QAct.push [1], QAct.push [2], QAct.pop, QAct.pop]).2 (by decide)⟩

/-- stop never modifies minimal_duration_recorded. -/
theorem stop_minimal_unchanged (s : AudioProcessor) :
    (stop s).minimal_duration_recorded = s.minimal_duration_recorded := by
  unfold stop
  split_ifs <;> rfl

/-- timerStep never clears minimal_duration_recorded, and sets it whenever
the observed duration has reached the minimum. -/
theorem timerStep_minimal_mono (s : AudioProcessor) (d : ℕ)
    (h : s.minimal_duration_recorded = true) :
    (timerStep s d).1.minimal_duration_recorded = true := by
  unfold timerStep
  dsimp only
  split_ifs <;> simp_all

/-- A capture iteration never clears minimal_duration_recorded. -/
theorem captureStep_minimal_mono (s : AudioProcessor) (r : Option Block)
    (h : s.minimal_duration_recorded = true) :
    (captureStep s r).1.minimal_duration_recorded = true := by
  cases r with
  | none => simpa [captureStep, stop_minimal_unchanged]
  | some data =>
    unfold captureStep filter_by_frequency_range
    by_cases hf : s.do_audio_filter = true
    · simp only [hf, if_pos]
      cases filterBody data s.f_min s.f_max with
      | none => simp [stop_minimal_unchanged, h]
      | some v =>
        simp only
        cases s.audio_data_queue with
        | none => simp [stop_minimal_unchanged, h]
        | some q => simpa
    · simp only [hf]
      simp only [Bool.not_eq_true] at hf
      simp only [hf, if_neg Bool.false_ne_true]
      cases s.audio_data_queue with
      | none => simp [stop_minimal_unchanged, h]
      | some q => simpa

/-- The whole timer thread never clears minimal_duration_recorded. -/
theorem recording_timer_minimal_mono (ds : List ℕ) :
    ∀ s : AudioProcessor, s.minimal_duration_recorded = true →
      (recording_timer s ds).1.minimal_duration_recorded = true := by
  induction ds with
  | nil => intro s h; exact h
  | cons d rest ih =>
    intro s h
    unfold recording_timer
    by_cases hr : s.is_running = true
    · simp only [hr, if_pos]
      by_cases hb : (timerStep s d).2 = true
      · simp [hb, stop_minimal_unchanged, timerStep_minimal_mono s d h]
      · simp only [Bool.not_eq_true] at hb
        simp [hb, ih _ (timerStep_minimal_mono s d h)]
    · simp only [Bool.not_eq_true] at hr
      simp [hr, stop_minimal_unchanged, h]

/-- C8: within a session, minimal_duration_recorded is monotonic. Once it
is true, stop, any timer iteration, the whole timer thread, and any capture
iteration (including every error path, which only calls stop) leave it
true; and the timer sets it whenever it observes a duration at or beyond
the minimum. -/
theorem C8_minimal_monotone (s : AudioProcessor) (d : ℕ) (ds : List ℕ) (r : Option Block)
    (h : s.minimal_duration_recorded = true) :
    (stop s).minimal_duration_recorded = true ∧
    (timerStep s d).1.minimal_duration_recorded = true ∧
    (captureStep s r).1.minimal_duration_recorded = true ∧
    (recording_timer s ds).1.minimal_duration_recorded = true ∧
    (∀ t : AudioProcessor, t.min_duration ≤ d →
      (timerStep t d).1.minimal_duration_recorded = true) := by
  refine ⟨?_, timerStep_minimal_mono s d h, captureStep_minimal_mono s r h,
    recording_timer_minimal_mono ds s h, ?_⟩
  · rw [stop_minimal_unchanged]; exact h
  · intro t ht
    unfold timerStep
    dsimp only
    split_ifs <;> simp_all

/-- C8 witness: the monotonicity conjunction evaluated on a concrete
running session with the flag already true, a timer script, and a
successful read. -/
theorem C8_witness :
    ({ baseState with minimal_duration_recorded := true } : AudioProcessor).minimal_duration_recorded = true ∧
    ((stop { baseState with minimal_duration_recorded := true }).minimal_duration_recorded = true ∧
      (timerStep { baseState with minimal_duration_recorded := true } 3).1.minimal_duration_recorded = true ∧
      (captureStep { baseState with minimal_duration_recorded := true } (some [5])).1.minimal_duration_recorded = true ∧
      (recording_timer { baseState with minimal_duration_recorded := true } [3, 4]).1.minimal_duration_recorded = true ∧
      (∀ t : AudioProcessor, t.min_duration ≤ 3 →
        (timerStep t 3).1.minimal_duration_recorded = true)) :=
  ⟨by decide,
    C8_minimal_monotone { baseState with minimal_duration_recorded := true } 3 [3, 4]
      (some [5]) (by decide)⟩

/-- C10: when the filter body raises, filter_by_frequency_range calls stop
and hands back None instead of a block; the capture iteration then feeds
that None to audioop.tostereo, which raises in the same iteration, and the
except handler of the worker calls stop once more — so the iteration ends
in a doubly-stopped state with a read event and two stop events and pushes
nothing. -/
theorem C10_filter_error_path (s : AudioProcessor) (data : Block)
    (hf : s.do_audio_filter = true)
    (he : filterBody data s.f_min s.f_max = none) :
    filter_by_frequency_range s data s.f_min s.f_max = (stop s, none) ∧
    captureStep s (some data) = (stop (stop s), [Ev.readEv, Ev.stopEv, Ev.stopEv]) := by
  constructor
  · simp [filter_by_frequency_range, he]
  · simp [captureStep, hf, filter_by_frequency_range, he]

/-- C10 witness: the filter body raises on an empty block (np.fft.rfft of
an empty channel); the concrete iteration takes exactly the modelled error
path. -/
theorem C10_witness :
    ({ baseState with do_audio_filter := true } : AudioProcessor).do_audio_filter = true ∧
    filterBody [] ({ baseState with do_audio_filter := true } : AudioProcessor).f_min
      ({ baseState with do_audio_filter := true } : AudioProcessor).f_max = none ∧
    (filter_by_frequency_range { baseState with do_audio_filter := true } []
        ({ baseState with do_audio_filter := true } : AudioProcessor).f_min
        ({ baseState with do_audio_filter := true } : AudioProcessor).f_max =
        (stop { baseState with do_audio_filter := true }, none) ∧
      captureStep { baseState with do_audio_filter := true } (some []) =
        (stop (stop { baseState with do_audio_filter := true }),
          [Ev.readEv, Ev.stopEv, Ev.stopEv])) :=
  ⟨rfl, by simp [filterBody, evens, odds, baseState],
    C10_filter_error_path { baseState with do_audio_filter := true } [] rfl
      (by simp [filterBody, evens, odds, baseState])⟩

theorem applyIdx_length (f : ℕ → α → α) (a : List α) :
    ∀ i, (applyIdx f i a).length = a.length := by
  induction a with
  | nil => intro i; rfl
  | cons x t ih => intro i; simp [applyIdx, ih]

theorem applyIdx_getD (f : ℕ → α → α) (d : α) (a : List α) :
    ∀ i k, k < a.length → (applyIdx f i a).getD k d = f (i + k) (a.getD k d) := by
  induction a with
  | nil => intro i k h; simp at h
  | cons x t ih =>
    intro i k h
    cases k with
    | zero => simp [applyIdx]
    | succ m =>
      simp only [applyIdx, List.getD_cons_succ]
      rw [ih (i + 1) m (by simpa using h)]
      ring_nf

theorem applyIdx_applyIdx (f g : ℕ → α → α) (a : List α) :
    ∀ i, applyIdx g i (applyIdx f i a) = applyIdx (fun j v => g j (f j v)) i a := by
  induction a with
  | nil => intro i; rfl
  | cons x t ih => intro i; simp [applyIdx, ih]

theorem applyIdx_eq_self (f : ℕ → α → α) (a : List α) :
    ∀ i, (∀ j v, j < i + a.length → f j v = v) → applyIdx f i a = a := by
  induction a with
  | nil => intro i _; rfl
  | cons x t ih =>
    intro i h
    simp only [applyIdx]
    rw [h i x (by simp), ih (i + 1) (fun j v hj => h j v (by simp; omega))]

theorem getD_map_range (f : ℕ → β) (d : β) (n k : ℕ) (h : k < n) :
    ((List.range n).map f).getD k d = f k := by
  rw [List.getD_eq_getElem?_getD, List.getElem?_map, List.getElem?_range h]
  rfl

theorem evens_length (s : List α) : (evens s).length = (s.length + 1) / 2 := by
  induction s using evens.induct with
  | case1 => simp [evens]
  | case2 x => simp [evens]
  | case3 x y t ih => simp [evens, ih]; omega

theorem odds_length (s : List α) : (odds s).length = s.length / 2 := by
  induction s using odds.induct with
  | case1 => simp [odds]
  | case2 x => simp [odds]
  | case3 x y t ih => simp [odds, ih]; omega

theorem evens_mem (s : List α) (v : α) (h : v ∈ evens s) : v ∈ s := by
  induction s using evens.induct with
  | case1 => simp [evens] at h
  | case2 x => simpa [evens] using h
  | case3 x y t ih =>
    simp only [evens, List.mem_cons] at h
    rcases h with h | h
    · simp [h]
    · simp [ih h]

theorem odds_mem (s : List α) (v : α) (h : v ∈ odds s) : v ∈ s := by
  induction s using odds.induct with
  | case1 => simp [odds] at h
  | case2 x => simp [odds] at h
  | case3 x y t ih =>
    simp only [odds, List.mem_cons] at h
    rcases h with h | h
    · simp [h]
    · simp [ih h]

theorem interleave_evens_odds (s : List α) (h : s.length % 2 = 0) :
    interleave (evens s) (odds s) = s := by
  induction s using evens.induct with
  | case1 => rfl
  | case2 x => simp at h
  | case3 x y t ih =>
    simp only [evens, odds, interleave]
    rw [ih (by simp at h; omega)]

theorem interleave_length (a b : List α) (h : a.length = b.length) :
    (interleave a b).length = 2 * a.length := by
  induction a generalizing b with
  | nil => cases b with
    | nil => rfl
    | cons y ys => simp at h
  | cons x xs ih =>
    cases b with
    | nil => simp at h
    | cons y ys =>
      simp only [interleave, List.length_cons]
      rw [ih ys (by simpa using h)]
      omega

theorem rfft_length (x : List ℝ) : (rfft x).length = x.length / 2 + 1 := by
  simp [rfft]

theorem irfft_length (a : List ℂ) : (irfft a).length = 2 * (a.length - 1) := by
  simp [irfft, irfftLen]

theorem zeroBelow_length (lo : ℕ) (a : List ℂ) : (zeroBelow lo a).length = a.length := by
  simp [zeroBelow, applyIdx_length]

theorem zeroFrom_length (hi : ℕ) (a : List ℂ) : (zeroFrom hi a).length = a.length := by
  simp [zeroFrom, applyIdx_length]

theorem zeroBelow_zero (a : List ℂ) : zeroBelow 0 a = a := by
  apply applyIdx_eq_self
  intro j v _
  simp

theorem zeroFrom_of_ge (hi : ℕ) (a : List ℂ) (h : a.length ≤ hi) : zeroFrom hi a = a := by
  apply applyIdx_eq_self
  intro j v hj
  simp only [ite_eq_right_iff]
  intro hij
  omega

theorem zeroFrom_zeroBelow (lo hi : ℕ) (a : List ℂ) :
    zeroFrom hi (zeroBelow lo a) =
      applyIdx (fun i v => if i < lo ∨ hi ≤ i then 0 else v) 0 a := by
  rw [zeroFrom, zeroBelow, applyIdx_applyIdx]
  congr 1
  funext j v
  by_cases h1 : j < lo <;> by_cases h2 : hi ≤ j <;> simp [h1, h2]

theorem castInt16_intCast (v : ℤ) (h1 : -32768 ≤ v) (h2 : v ≤ 32767) :
    castInt16 ((v : ℝ)) = v := by
  unfold castInt16 wrap16
  by_cases hv : (0 : ℝ) ≤ (v : ℝ)
  · rw [if_pos hv, Int.floor_intCast]
    omega
  · rw [if_neg hv]
    rw [show (-(v : ℝ)) = ((-v : ℤ) : ℝ) by push_cast; ring, Int.floor_intCast]
    omega

theorem wexp_add (n : ℕ) (a b : ℤ) : wexp n (a + b) = wexp n a * wexp n b := by
  unfold wexp
  rw [← Complex.exp_add]
  congr 1
  push_cast
  ring

theorem wexp_zero (n : ℕ) : wexp n 0 = 1 := by
  simp [wexp]

theorem wexp_conj (n : ℕ) (t : ℤ) : (starRingEnd ℂ) (wexp n t) = wexp n (-t) := by
  unfold wexp
  rw [← Complex.exp_conj]
  congr 1
  simp only [map_div₀, map_mul, Complex.conj_I, map_ofNat, Complex.conj_ofReal,
    map_intCast, map_natCast]
  push_cast
  ring

theorem wexp_pow (n : ℕ) (d : ℤ) (k : ℕ) : wexp n (d * k) = (wexp n d) ^ k := by
  unfold wexp
  rw [← Complex.exp_nat_mul]
  congr 1
  push_cast
  ring

theorem wexp_mul_self (n : ℕ) (hn : n ≠ 0) (d : ℤ) : wexp n (d * n) = 1 := by
  have hnc : (n : ℂ) ≠ 0 := Nat.cast_ne_zero.mpr hn
  unfold wexp
  rw [show 2 * (Real.pi : ℂ) * Complex.I * ((d * n : ℤ) : ℂ) / (n : ℂ)
        = (d : ℂ) * (2 * Real.pi * Complex.I) from by push_cast; field_simp; ring]
  exact Complex.exp_int_mul_two_pi_mul_I d

theorem wexp_ne_one (n : ℕ) (hn : n ≠ 0) (d : ℤ) (hd : ¬ (n : ℤ) ∣ d) : wexp n d ≠ 1 := by
  intro h
  unfold wexp at h
  rw [Complex.exp_eq_one_iff] at h
  obtain ⟨m, hm⟩ := h
  apply hd
  have hnc : (n : ℂ) ≠ 0 := Nat.cast_ne_zero.mpr hn
  have hd2 : (d : ℂ) = (m : ℂ) * (n : ℂ) := by
    have h2 : (2 * (Real.pi : ℂ) * Complex.I) ≠ 0 := Complex.two_pi_I_ne_zero
    field_simp at hm
    apply mul_left_cancel₀ h2
    linear_combination hm
  have hd3 : d = m * n := by exact_mod_cast hd2
  exact ⟨m, by rw [hd3, Int.mul_comm]⟩

theorem sum_wexp (n : ℕ) (hn : n ≠ 0) (d : ℤ) :
    ∑ k ∈ Finset.range n, wexp n (d * k) = if (n : ℤ) ∣ d then (n : ℂ) else 0 := by
  by_cases hdvd : (n : ℤ) ∣ d
  · rw [if_pos hdvd]
    obtain ⟨m, hm⟩ := hdvd
    have hone : ∀ k ∈ Finset.range n, wexp n (d * k) = 1 := by
      intro k _
      rw [hm, show (n : ℤ) * m * (k : ℤ) = (m * k) * (n : ℤ) from by ring,
        wexp_mul_self n hn (m * k)]
    rw [Finset.sum_congr rfl hone]
    simp
  · rw [if_neg hdvd]
    have hne : wexp n d ≠ 1 := wexp_ne_one n hn d hdvd
    calc ∑ k ∈ Finset.range n, wexp n (d * k)
        = ∑ k ∈ Finset.range n, (wexp n d) ^ k := by
          exact Finset.sum_congr rfl fun k _ => wexp_pow n d k
      _ = ((wexp n d) ^ n - 1) / (wexp n d - 1) := geom_sum_eq hne n
      _ = 0 := by
          rw [← wexp_pow n d n, wexp_mul_self n hn d]
          simp

/-- Helper for the inversion proof: the j-dependent spectrum term
g k = sum over jp of x_jp exp (2 pi i (j - jp) k / n). -/
noncomputable def gfun (x : List ℝ) (j k : ℕ) : ℂ :=
  ∑ jp ∈ Finset.range x.length, (x.getD jp 0 : ℂ) * wexp x.length (((j : ℤ) - jp) * k)

theorem rfftVal_mul_wexp (x : List ℝ) (j k : ℕ) :
    rfftVal x k * wexp x.length ((j : ℤ) * k) = gfun x j k := by
  unfold rfftVal gfun
  rw [Finset.sum_mul]
  refine Finset.sum_congr rfl fun jp _ => ?_
  rw [mul_assoc, ← wexp_add]
  congr 2
  ring

theorem gfun_conj (x : List ℝ) (j k : ℕ) (hk : k ≤ x.length) (hn : x.length ≠ 0) :
    (starRingEnd ℂ) (gfun x j k) = gfun x j (x.length - k) := by
  unfold gfun
  rw [map_sum]
  refine Finset.sum_congr rfl fun jp _ => ?_
  rw [map_mul, Complex.conj_ofReal, wexp_conj]
  congr 1
  have harg : ((j : ℤ) - jp) * ((x.length - k : ℕ) : ℤ)
      = ((j : ℤ) - jp) * (x.length : ℤ) + -(((j : ℤ) - jp) * k) := by
    push_cast [hk]
    ring
  rw [harg, wexp_add, wexp_mul_self _ hn, one_mul]

theorem gfun_zero_eq (x : List ℝ) (j : ℕ) : gfun x j 0 = rfftVal x 0 := by
  rw [← rfftVal_mul_wexp x j 0]
  simp [wexp_zero]

theorem wexp_half (m : ℕ) (hm : m ≠ 0) (j : ℕ) :
    wexp (2 * m) ((j : ℤ) * m) = (-1 : ℂ) ^ j := by
  have h1 : ((j : ℤ) * m) = ((m : ℤ) * j) := by ring
  rw [h1, wexp_pow]
  congr 1
  unfold wexp
  rw [show 2 * (Real.pi : ℂ) * Complex.I * ((m : ℤ) : ℂ) / ((2 * m : ℕ) : ℂ)
        = (Real.pi : ℂ) * Complex.I from ?_]
  · exact Complex.exp_pi_mul_I
  · have hmc : ((m : ℕ) : ℂ) ≠ 0 := Nat.cast_ne_zero.mpr hm
    push_cast
    field_simp
    ring

theorem gfun_nyquist_eq (x : List ℝ) (j m : ℕ) (hm : m ≠ 0) (hx : x.length = 2 * m) :
    (gfun x j m).re = (-1 : ℝ) ^ j * (rfftVal x m).re := by
  rw [← rfftVal_mul_wexp x j m, hx, wexp_half m hm j]
  rw [show ((-1 : ℂ) ^ j) = (((-1 : ℝ) ^ j : ℝ) : ℂ) from by push_cast; ring]
  rw [mul_comm, Complex.re_ofReal_mul]

theorem gfun_reflect_sum (x : List ℝ) (j m : ℕ) (hx : x.length = 2 * m) :
    ∑ k ∈ Finset.Ioo 0 m, gfun x j (x.length - k)
      = ∑ k ∈ Finset.Ioo m x.length, gfun x j k := by
  refine Finset.sum_nbij' (fun k => x.length - k) (fun k => x.length - k) ?_ ?_ ?_ ?_ ?_
  · intro k hk
    simp only [Finset.mem_Ioo] at *
    omega
  · intro k hk
    simp only [Finset.mem_Ioo] at *
    omega
  · intro k hk
    simp only [Finset.mem_Ioo] at hk
    show x.length - (x.length - k) = k
    omega
  · intro k hk
    simp only [Finset.mem_Ioo] at hk
    show x.length - (x.length - k) = k
    omega
  · intro k _
    rfl

theorem gfun_range_split (x : List ℝ) (j m : ℕ) (hx : x.length = 2 * m) (hm : 1 ≤ m) :
    ∑ k ∈ Finset.range x.length, gfun x j k
      = gfun x j 0 + gfun x j m
        + (∑ k ∈ Finset.Ioo 0 m, gfun x j k + ∑ k ∈ Finset.Ioo m x.length, gfun x j k) := by
  have h1 : ∑ k ∈ Finset.range x.length, gfun x j k
      = ∑ k ∈ Finset.Ico 0 x.length, gfun x j k := by
    rw [Nat.Ico_zero_eq_range]
  rw [h1, ← Finset.sum_Ico_consecutive (fun k => gfun x j k)
      (Nat.zero_le m) (by omega : m ≤ x.length)]
  rw [← Finset.Ioo_insert_left (by omega : 0 < m),
      ← Finset.Ioo_insert_left (by omega : m < x.length)]
  rw [Finset.sum_insert (by simp), Finset.sum_insert (by simp)]
  ring

theorem gfun_total (x : List ℝ) (j : ℕ) (hj : j < x.length) (hn : x.length ≠ 0) :
    ∑ k ∈ Finset.range x.length, gfun x j k = (x.length : ℂ) * (x.getD j 0 : ℂ) := by
  unfold gfun
  rw [Finset.sum_comm]
  have hterm : ∀ jp ∈ Finset.range x.length,
      ∑ k ∈ Finset.range x.length, (x.getD jp 0 : ℂ) * wexp x.length (((j : ℤ) - jp) * k)
        = (x.getD jp 0 : ℂ) * (if ((x.length : ℤ)) ∣ ((j : ℤ) - jp) then (x.length : ℂ) else 0) := by
    intro jp _
    rw [← Finset.mul_sum, sum_wexp x.length hn ((j : ℤ) - jp)]
  rw [Finset.sum_congr rfl hterm]
  rw [Finset.sum_eq_single j]
  · simp [mul_comm]
  · intro jp hjp hne
    simp only [Finset.mem_range] at hjp
    have hnd : ¬ ((x.length : ℤ)) ∣ ((j : ℤ) - jp) := by
      intro hdvd
      have hz : ((j : ℤ) - jp) = 0 := by
        refine Int.eq_zero_of_dvd_of_natAbs_lt_natAbs hdvd ?_
        have : ((j : ℤ) - jp).natAbs < x.length := by omega
        simpa using this
      have : j = jp := by omega
      exact hne (by omega)
    simp [hnd]
  · intro hj2
    exact absurd (Finset.mem_range.mpr hj) hj2

theorem irfftVal_rfft (x : List ℝ) (hlen : x.length % 2 = 0) (h0 : x.length ≠ 0)
    (j : ℕ) (hj : j < x.length) : irfftVal (rfft x) j = x.getD j 0 := by
  have hm1 : 1 ≤ x.length / 2 := by omega
  have hg0 : (rfftVal x 0).re = (gfun x j 0).re := by rw [gfun_zero_eq]
  have hgm : (-1 : ℝ) ^ j * (rfftVal x (x.length / 2)).re = (gfun x j (x.length / 2)).re :=
    (gfun_nyquist_eq x j (x.length / 2) (by omega) (by omega)).symm
  have hsum : ∀ k ∈ Finset.Ioo 0 (x.length / 2),
      2 * ((rfftVal x k) * wexp x.length ((j : ℤ) * k)).re
        = (gfun x j k).re + (gfun x j (x.length - k)).re := by
    intro k hk
    simp only [Finset.mem_Ioo] at hk
    rw [rfftVal_mul_wexp,
      ← gfun_conj x j k (by omega) h0, Complex.conj_re]
    ring
  have key : (rfftVal x 0).re + (-1 : ℝ) ^ j * (rfftVal x (x.length / 2)).re
      + ∑ k ∈ Finset.Ioo 0 (x.length / 2),
          2 * ((rfftVal x k) * wexp x.length ((j : ℤ) * k)).re
      = (x.length : ℝ) * x.getD j 0 := by
    rw [hg0, hgm, Finset.sum_congr rfl hsum]
    have step2 : (∑ k ∈ Finset.range x.length, gfun x j k).re
        = (gfun x j 0).re + (gfun x j (x.length / 2)).re
          + ∑ k ∈ Finset.Ioo 0 (x.length / 2),
              ((gfun x j k).re + (gfun x j (x.length - k)).re) := by
      rw [gfun_range_split x j (x.length / 2) (by omega) hm1,
        ← gfun_reflect_sum x j (x.length / 2) (by omega),
        ← Finset.sum_add_distrib]
      simp only [Complex.add_re, Complex.re_sum]
    have step3 : (∑ k ∈ Finset.range x.length, gfun x j k).re
        = (x.length : ℝ) * x.getD j 0 := by
      rw [gfun_total x j hj h0]
      simp [Complex.mul_re]
    rw [← step2, step3]
  have h_ilen : irfftLen (rfft x) = x.length := by
    rw [irfftLen, rfft_length]
    omega
  have h_am1 : (rfft x).length - 1 = x.length / 2 := by
    rw [rfft_length]
    omega
  have h_a0 : (rfft x).getD 0 0 = rfftVal x 0 := by
    rw [rfft]
    exact getD_map_range _ _ _ _ (by omega)
  have h_am : (rfft x).getD (x.length / 2) 0 = rfftVal x (x.length / 2) := by
    rw [rfft]
    exact getD_map_range _ _ _ _ (by omega)
  have h_ak : ∀ k ∈ Finset.Ioo 0 (x.length / 2),
      2 * ((rfft x).getD k 0 * wexp x.length ((j : ℤ) * k)).re
        = 2 * ((rfftVal x k) * wexp x.length ((j : ℤ) * k)).re := by
    intro k hk
    simp only [Finset.mem_Ioo] at hk
    rw [show (rfft x).getD k 0 = rfftVal x k from by
      rw [rfft]; exact getD_map_range _ _ _ _ (by omega)]
  unfold irfftVal
  rw [h_ilen, h_am1, h_a0, h_am, Finset.sum_congr rfl h_ak, key,
    mul_div_cancel_left₀]
  exact Nat.cast_ne_zero.mpr h0

/-- Fourier inversion as numpy computes it: for a real sequence of even
positive length, irfft (rfft x) returns x exactly (in exact real
arithmetic). -/
theorem irfft_rfft (x : List ℝ) (hlen : x.length % 2 = 0) (h0 : x.length ≠ 0) :
    irfft (rfft x) = x := by
  have h_ilen : irfftLen (rfft x) = x.length := by
    rw [irfftLen, rfft_length]
    omega
  apply List.ext_getElem
  · rw [irfft_length, rfft_length]
    omega
  · intro j hj1 hj2
    have hjx : j < x.length := hj2
    rw [show (irfft (rfft x))[j] = irfftVal (rfft x) j from ?_]
    · rw [irfftVal_rfft x hlen h0 j hjx]
      simp [List.getD_eq_getElem?_getD, List.getElem?_eq_getElem hjx]
    · simp [irfft, h_ilen]

/-- For a block whose two channels have even positive length, none of the
guards of the filter body fires, and the body returns the de-interleave /
transform / zero / inverse / re-interleave / cast composition. -/
theorem filterBody_eq (s : Block) (lo hi : ℕ) (h4 : s.length % 4 = 0) (h0 : s ≠ []) :
    filterBody s lo hi = some (interleave
      ((irfft (zeroFrom hi (zeroBelow lo (rfft (toReals (evens s)))))).map castInt16)
      ((irfft (zeroFrom hi (zeroBelow lo (rfft (toReals (odds s)))))).map castInt16)) := by
  have hs0 : s.length ≠ 0 := fun h => h0 (List.length_eq_zero.mp h)
  have hs4 : 4 ≤ s.length := by omega
  have hLm : (toReals (evens s)).length = s.length / 2 := by
    rw [toReals, List.length_map, evens_length]
    omega
  have hRm : (toReals (odds s)).length = s.length / 2 := by
    rw [toReals, List.length_map, odds_length]
  have h1 : ¬ ((evens s).length = 0 ∨ (odds s).length = 0) := by
    rw [evens_length, odds_length]
    omega
  have h2 : ¬ ((zeroFrom hi (zeroBelow lo (rfft (toReals (evens s))))).length ≤ 1 ∨
      (zeroFrom hi (zeroBelow lo (rfft (toReals (odds s))))).length ≤ 1) := by
    rw [zeroFrom_length, zeroBelow_length, rfft_length, zeroFrom_length, zeroBelow_length,
      rfft_length, hLm, hRm]
    omega
  have h3 : ¬ ((irfft (zeroFrom hi (zeroBelow lo (rfft (toReals (evens s)))))).length ≠
      (irfft (zeroFrom hi (zeroBelow lo (rfft (toReals (odds s)))))).length) := by
    rw [irfft_length, irfft_length, zeroFrom_length, zeroBelow_length, rfft_length,
      zeroFrom_length, zeroBelow_length, rfft_length, hLm, hRm]
    omega
  simp only [filterBody]
  rw [if_neg h1, if_neg h2, if_neg h3]

/-- C9 counterexample: the one-frame stereo block [0, 0] under cutoffs
(0, blockLength) = (0, 2). Each channel has a single sample, np.fft.irfft
is asked for an output of length 0 and raises, the except handler calls
stop, and the method returns None — not the input block. -/
theorem C9_counterexample :
    filter_by_frequency_range baseState [0, 0] 0 2 = (stop baseState, none) ∧
    ¬ (filter_by_frequency_range baseState [0, 0] 0 2).2 = some [0, 0] := by
  have hev : evens ([0, 0] : Block) = [0] := rfl
  have hod : odds ([0, 0] : Block) = [0] := rfl
  have hbody : filterBody [0, 0] 0 2 = none := by
    simp only [filterBody, hev, hod]
    rw [if_neg (by simp)]
    rw [if_pos]
    rw [zeroFrom_length, zeroBelow_length, rfft_length]
    left
    rfl
  constructor
  · unfold filter_by_frequency_range
    rw [hbody]
  · unfold filter_by_frequency_range
    rw [hbody]
    simp

/-- C9 amended: for every stereo 16-bit block with an even, positive number
of frames per channel (every fixed 1024-frame SampleBlock qualifies), the
filter with cutoffs (0, blockLength) returns the input unchanged — the
low-pass slice zeroes nothing, the high-pass cutoff lies beyond the last
bin, the inverse transform undoes the forward transform exactly in real
arithmetic, and the int16 cast restores every sample — so the no-op filter
is the identity (and hence idempotent) there, without touching the session
state. -/
theorem C9_amended (st : AudioProcessor) (s : Block)
    (h4 : s.length % 4 = 0) (h0 : s ≠ [])
    (hr : ∀ v ∈ s, -32768 ≤ v ∧ v ≤ 32767) :
    filter_by_frequency_range st s 0 s.length = (st, some s) := by
  have hs0 : s.length ≠ 0 := fun h => h0 (List.length_eq_zero.mp h)
  have hs4 : 4 ≤ s.length := by omega
  have hLm : (toReals (evens s)).length = s.length / 2 := by
    rw [toReals, List.length_map, evens_length]
    omega
  have hRm : (toReals (odds s)).length = s.length / 2 := by
    rw [toReals, List.length_map, odds_length]
  have hzL : zeroFrom s.length (zeroBelow 0 (rfft (toReals (evens s))))
      = rfft (toReals (evens s)) := by
    rw [zeroBelow_zero, zeroFrom_of_ge]
    rw [rfft_length, hLm]
    omega
  have hzR : zeroFrom s.length (zeroBelow 0 (rfft (toReals (odds s))))
      = rfft (toReals (odds s)) := by
    rw [zeroBelow_zero, zeroFrom_of_ge]
    rw [rfft_length, hRm]
    omega
  have hinvL : irfft (rfft (toReals (evens s))) = toReals (evens s) :=
    irfft_rfft _ (by rw [hLm]; omega) (by rw [hLm]; omega)
  have hinvR : irfft (rfft (toReals (odds s))) = toReals (odds s) :=
    irfft_rfft _ (by rw [hRm]; omega) (by rw [hRm]; omega)
  have hcastL : (toReals (evens s)).map castInt16 = evens s := by
    rw [toReals, List.map_map]
    have hmem : ∀ v ∈ evens s, (castInt16 ∘ fun v : ℤ => (v : ℝ)) v = v := by
      intro v hv
      have hb := hr v (evens_mem s v hv)
      exact castInt16_intCast v hb.1 hb.2
    rw [List.map_congr_left hmem, List.map_id']
  have hcastR : (toReals (odds s)).map castInt16 = odds s := by
    rw [toReals, List.map_map]
    have hmem : ∀ v ∈ odds s, (castInt16 ∘ fun v : ℤ => (v : ℝ)) v = v := by
      intro v hv
      have hb := hr v (odds_mem s v hv)
      exact castInt16_intCast v hb.1 hb.2
    rw [List.map_congr_left hmem, List.map_id']
  have hbody : filterBody s 0 s.length = some s := by
    rw [filterBody_eq s 0 s.length h4 h0, hzL, hzR, hinvL, hinvR, hcastL, hcastR,
      interleave_evens_odds s (by omega)]
  unfold filter_by_frequency_range
  rw [hbody]

/-- C9 witness: the no-op filter evaluated on the concrete 2-frame stereo
block [1, -2, 3, 32767] with cutoffs (0, 4). -/
theorem C9_witness :
    ([1, -2, 3, 32767] : Block).length % 4 = 0 ∧
    ([1, -2, 3, 32767] : Block) ≠ [] ∧
    (∀ v ∈ ([1, -2, 3, 32767] : Block), -32768 ≤ v ∧ v ≤ 32767) ∧
    filter_by_frequency_range baseState [1, -2, 3, 32767] 0
        ([1, -2, 3, 32767] : Block).length = (baseState, some [1, -2, 3, 32767]) :=
  ⟨by decide, by decide, by decide,
    C9_amended baseState [1, -2, 3, 32767] (by decide) (by decide) (by decide)⟩

/-- C6 counterexample: the 3-frame stereo block of six zero samples under
cutoff bins (0, 3). Each channel has odd length 3, np.fft.rfft yields 2
bins, and np.fft.irfft then produces only 2 samples per channel, so the
filter returns a block of 4 samples — not a block of identical length 6. -/
theorem C6_counterexample :
    (0 : ℕ) < 3 ∧
    (filter_by_frequency_range baseState [0, 0, 0, 0, 0, 0] 0 3).2.map List.length = some 4 ∧
    ([0, 0, 0, 0, 0, 0] : Block).length = 6 := by
  have hev : evens ([0, 0, 0, 0, 0, 0] : Block) = [0, 0, 0] := rfl
  have hod : odds ([0, 0, 0, 0, 0, 0] : Block) = [0, 0, 0] := rfl
  have hlen3 : (toReals [0, 0, 0]).length = 3 := by
    rw [toReals, List.length_map]
    rfl
  have hg2 : ¬ ((zeroFrom 3 (zeroBelow 0 (rfft (toReals [0, 0, 0])))).length ≤ 1 ∨
      (zeroFrom 3 (zeroBelow 0 (rfft (toReals [0, 0, 0])))).length ≤ 1) := by
    rw [zeroFrom_length, zeroBelow_length, rfft_length, hlen3]
    omega
  have hg3 : ¬ ((irfft (zeroFrom 3 (zeroBelow 0 (rfft (toReals [0, 0, 0]))))).length ≠
      (irfft (zeroFrom 3 (zeroBelow 0 (rfft (toReals [0, 0, 0]))))).length) := by
    simp
  have hbody : (filterBody [0, 0, 0, 0, 0, 0] 0 3).map List.length = some 4 := by
    simp only [filterBody, hev, hod]
    rw [if_neg (by simp), if_neg hg2, if_neg hg3]
    rw [Option.map_some']
    congr 1
  refine ⟨by omega, ?_, rfl⟩
  unfold filter_by_frequency_range
  cases hfb : filterBody [0, 0, 0, 0, 0, 0] 0 3 with
  | none => rw [hfb] at hbody; simp at hbody
  | some r =>
    rw [hfb] at hbody
    simpa using hbody

/-- C6 amended: for every interleaved stereo 16-bit block with an even,
positive number of frames per channel (every fixed 1024-frame SampleBlock
qualifies) and cutoff bins lowCutoff < highCutoff, the filter succeeds
without touching the session state and returns a block of identical length
computed exactly as the spec describes: de-interleave, real forward
transform per channel, zero the bins below lowCutoff and at or beyond
highCutoff, inverse transform, re-interleave, cast back to int16 with
truncation and wrapping. For an odd number of frames per channel the output
is one frame shorter per channel (see the counterexample), so the identical
length part needs the evenness restriction. -/
theorem C6_amended (st : AudioProcessor) (s : Block) (lo hi : ℕ)
    (h4 : s.length % 4 = 0) (h0 : s ≠ []) (_hlh : lo < hi) :
    filter_by_frequency_range st s lo hi = (st, some (specFilterPipeline s lo hi)) ∧
    (specFilterPipeline s lo hi).length = s.length := by
  have hs0 : s.length ≠ 0 := fun h => h0 (List.length_eq_zero.mp h)
  have hs4 : 4 ≤ s.length := by omega
  have hlenL : ((irfft (applyIdx (fun i v => if i < lo ∨ hi ≤ i then 0 else v) 0
      (rfft (toReals (evens s))))).map castInt16).length = 2 * (s.length / 4) := by
    rw [List.length_map, irfft_length, applyIdx_length, rfft_length, toReals,
      List.length_map, evens_length]
    omega
  have hlenR : ((irfft (applyIdx (fun i v => if i < lo ∨ hi ≤ i then 0 else v) 0
      (rfft (toReals (odds s))))).map castInt16).length = 2 * (s.length / 4) := by
    rw [List.length_map, irfft_length, applyIdx_length, rfft_length, toReals,
      List.length_map, odds_length]
    omega
  constructor
  · have hbody : filterBody s lo hi = some (specFilterPipeline s lo hi) := by
      rw [filterBody_eq s lo hi h4 h0]
      simp only [specFilterPipeline]
      rw [zeroFrom_zeroBelow, zeroFrom_zeroBelow]
    unfold filter_by_frequency_range
    rw [hbody]
  · simp only [specFilterPipeline]
    rw [interleave_length _ _ (by rw [hlenL, hlenR]), hlenL]
    omega

/-- C6 witness: the pipeline refinement and length preservation evaluated
on the concrete 2-frame stereo block [1, 2, 3, 4] with cutoffs (0, 1). -/
theorem C6_witness :
    ([1, 2, 3, 4] : Block).length % 4 = 0 ∧ ([1, 2, 3, 4] : Block) ≠ [] ∧ (0 : ℕ) < 1 ∧
    (filter_by_frequency_range baseState [1, 2, 3, 4] 0 1 =
        (baseState, some (specFilterPipeline [1, 2, 3, 4] 0 1)) ∧
      (specFilterPipeline [1, 2, 3, 4] 0 1).length = ([1, 2, 3, 4] : Block).length) :=
  ⟨by decide, by decide, by decide,
    C6_amended baseState [1, 2, 3, 4] 0 1 (by decide) (by decide) (by decide)⟩
